import Mathlib

/-!
Verification of `tools/build_notes.py`.

A shallow embedding of the core logic of the note-site build script:
sanitizers (`slugify`, `safe_segment`), metadata extraction
(`parse_tex_metadata`), date parsing (`parse_note_date`), path
classification (`infer_topic_course`), the grouping/sort engine and the
two emitters (`generate_quarto_yml`, `write_homepage`), together with
theorems about them.

Python strings are modelled as Lean `String`/`List Char`; the regex
character classes `\w` and `\s` are modelled at ASCII scope (the script
is only exercised on ASCII path segments and titles).  the stable Python
`list.sort`/`sorted` is modelled by `List.mergeSort`, which is likewise
stable, so the two agree on every input.
-/

namespace BuildNotes

/-- ASCII model of the Python regex class `\s` (also the characters that
`str.strip` removes): space, tab, newline, carriage return, vertical tab,
form feed. -/
def pyIsSpace (c : Char) : Bool :=
  c = ' ' || c = '\t' || c = '\n' || c = '\r' || c = '\x0b' || c = '\x0c'

/-- ASCII digit `0`-`9`. -/
def isAsciiDigit (c : Char) : Bool :=
  48 ≤ c.toNat && c.toNat ≤ 57

/-- ASCII upper-case letter `A`-`Z`. -/
def isAsciiUpper (c : Char) : Bool :=
  65 ≤ c.toNat && c.toNat ≤ 90

/-- ASCII lower-case letter `a`-`z`. -/
def isAsciiLower (c : Char) : Bool :=
  97 ≤ c.toNat && c.toNat ≤ 122

/-- ASCII model of the Python regex class `\w`: letters, digits and
underscore. -/
def pyIsWord (c : Char) : Bool :=
  isAsciiUpper c || isAsciiLower c || isAsciiDigit c || c = '_'

/-- The character class kept by `re.sub(r"[^\w\s-]", "", s)` in both
sanitizers: word characters, whitespace and the hyphen. -/
def keepChar (c : Char) : Bool :=
  pyIsWord c || pyIsSpace c || c = '-'

/-- Model of Python `str.strip()` on the left only: drop leading
whitespace. -/
def pyStripLeft (l : List Char) : List Char :=
  l.dropWhile pyIsSpace

/-- Strip characters satisfying `p` from both ends of a list (used for
Python `str.strip()` and `str.strip("-")`). -/
def stripEnds (p : Char → Bool) (l : List Char) : List Char :=
  (((l.dropWhile p).reverse.dropWhile p).reverse)

/-- Model of Python `str.strip()`: remove leading and trailing
whitespace. -/
def pyStrip (l : List Char) : List Char :=
  stripEnds pyIsSpace l

/-- Worker for `subRuns`: the boolean records whether we are currently
inside a run of characters satisfying `p` (whose first character has
already been replaced by `r`). -/
def subRunsAux (p : Char → Bool) (r : Char) : Bool → List Char → List Char
  | _, [] => []
  | inRun, c :: cs =>
    if p c then
      if inRun then subRunsAux p r true cs
      else r :: subRunsAux p r true cs
    else c :: subRunsAux p r false cs

/-- Model of `re.sub` with a pattern matching maximal nonempty runs of
characters satisfying `p`, replacing each run by the single character
`r`.  This covers `re.sub(r"[\s_]+", "-", s)`, `re.sub(r"\s+", "_", s)`
and `re.sub(r"-\x7b2,\x7d", "-", s)` (for the last one, note that
replacing a run of one hyphen by one hyphen is the identity, so
collapsing runs of length at least two coincides with collapsing all
runs). -/
def subRuns (p : Char → Bool) (r : Char) (l : List Char) : List Char :=
  subRunsAux p r false l

/-- The characters that `re.sub(r"[\s_]+", "-", s)` replaces. -/
def spaceOrUnderscore (c : Char) : Bool :=
  pyIsSpace c || c = '_'

/-- `slugify` from `tools/build_notes.py`, on character lists:
`s.strip().lower()`, then remove characters outside `\w`, `\s`, `-`,
then collapse `[\s_]+` runs to `-`, then collapse hyphen runs, then
strip hyphens from both ends. -/
def slugifyChars (s : List Char) : List Char :=
  let s1 := (pyStrip s).map Char.toLower
  let s2 := s1.filter keepChar
  let s3 := subRuns spaceOrUnderscore '-' s2
  stripEnds (fun c => c = '-') (subRuns (fun c => c = '-') '-' s3)

/-- `slugify(s)` from `tools/build_notes.py`, including the
`return s or "note"` fallback. -/
def slugify (s : String) : String :=
  let r := slugifyChars s.data
  if r.isEmpty then "note" else String.mk r

/-- `safe_segment` from `tools/build_notes.py`, on character lists:
`s.strip()`, then remove characters outside `\w`, `\s`, `-`, then
collapse whitespace runs to `_`. -/
def safeSegmentChars (s : List Char) : List Char :=
  subRuns pyIsSpace '_' ((pyStrip s).filter keepChar)

/-- `safe_segment(s)` from `tools/build_notes.py`, including the
`return s or "unknown"` fallback. -/
def safe_segment (s : String) : String :=
  let r := safeSegmentChars s.data
  if r.isEmpty then "unknown" else String.mk r

/-- Encode a calendar date as a natural number.  The encoding is
strictly monotone in the lexicographic (year, month, day) order that
Python `datetime.date` comparison uses, for every date the parser can
produce (month at most 12 and day at most 31, both below 32). -/
def dateCode (y m d : Nat) : Nat :=
  y * 1024 + m * 32 + d

/-- `datetime.date.min`, i.e. `date(1, 1, 1)`: the sentinel that
`parse_note_date` returns for missing or unparseable dates. -/
def dateMin : Nat :=
  dateCode 1 1 1

/-- Gregorian leap-year rule, as in Python `datetime`. -/
def isLeap (y : Nat) : Bool :=
  y % 4 = 0 && (y % 100 ≠ 0 || y % 400 = 0)

/-- Number of days in a month, as in Python `datetime`. -/
def daysInMonth (y m : Nat) : Nat :=
  if m = 2 then (if isLeap y then 29 else 28)
  else if m = 4 || m = 6 || m = 9 || m = 11 then 30 else 31

/-- Numeric value of an ASCII digit character. -/
def digitVal (c : Char) : Nat :=
  c.toNat - 48

/-- The `datetime.date(y, m, d)` constructor: `some` of the encoded date
when the arguments denote a real calendar date in years 1..9999,
otherwise `none` (a raised `ValueError`, which `parse_note_date`
catches). -/
def mkDate (y m d : Nat) : Option Nat :=
  if 1 ≤ y ∧ y ≤ 9999 ∧ 1 ≤ m ∧ m ≤ 12 ∧ 1 ≤ d ∧ d ≤ daysInMonth y m then
    some (dateCode y m d)
  else none

/-- Parse the month, the second literal dash and the day of the
`_strptime` format `%Y-%m-%d`, the year `y` having been consumed.  The
CPython `_strptime` regex for `%m` is `1[0-2]|0[1-9]|[1-9]` (values 1-12,
one or two digits) and for `%d` it is `3[01]|[12]\d|0[1-9]|[1-9]`
(values 1-31, one or two digits), and the whole string must be consumed;
the three list shapes below are exactly the possible dash positions. -/
def parseMonthDay (y : Nat) (l : List Char) : Option Nat :=
  match l with
  | [m1, x, d1] =>
    if isAsciiDigit m1 ∧ 1 ≤ digitVal m1 ∧ x = '-' ∧ isAsciiDigit d1 ∧ 1 ≤ digitVal d1 then
      mkDate y (digitVal m1) (digitVal d1)
    else none
  | [a, b, c, d] =>
    if b = '-' then
      if isAsciiDigit a ∧ 1 ≤ digitVal a ∧ isAsciiDigit c ∧ isAsciiDigit d ∧
          1 ≤ digitVal c * 10 + digitVal d ∧ digitVal c * 10 + digitVal d ≤ 31 then
        mkDate y (digitVal a) (digitVal c * 10 + digitVal d)
      else none
    else if c = '-' then
      if isAsciiDigit a ∧ isAsciiDigit b ∧ 1 ≤ digitVal a * 10 + digitVal b ∧
          digitVal a * 10 + digitVal b ≤ 12 ∧ isAsciiDigit d ∧ 1 ≤ digitVal d then
        mkDate y (digitVal a * 10 + digitVal b) (digitVal d)
      else none
    else none
  | [a, b, x, c, d] =>
    if x = '-' ∧ isAsciiDigit a ∧ isAsciiDigit b ∧ 1 ≤ digitVal a * 10 + digitVal b ∧
        digitVal a * 10 + digitVal b ≤ 12 ∧ isAsciiDigit c ∧ isAsciiDigit d ∧
        1 ≤ digitVal c * 10 + digitVal d ∧ digitVal c * 10 + digitVal d ≤ 31 then
      mkDate y (digitVal a * 10 + digitVal b) (digitVal c * 10 + digitVal d)
    else none
  | _ => none

/-- Model of `datetime.strptime(s, "%Y-%m-%d").date()`: the `_strptime`
regex for `%Y` is exactly four digits, then a literal dash, then month
and day as in `parseMonthDay`. -/
def parseDateChars (l : List Char) : Option Nat :=
  match l with
  | y1 :: y2 :: y3 :: y4 :: x :: rest =>
    if isAsciiDigit y1 ∧ isAsciiDigit y2 ∧ isAsciiDigit y3 ∧ isAsciiDigit y4 ∧ x = '-' then
      parseMonthDay
        ((((digitVal y1 * 10 + digitVal y2) * 10 + digitVal y3) * 10 + digitVal y4)) rest
    else none
  | _ => none

/-- `parse_note_date` from `tools/build_notes.py`: a falsy argument
(`None` or the empty string) gives `date.min`; otherwise the stripped
string is parsed with `strptime("%Y-%m-%d")` and any failure (parse
error or invalid calendar date) gives `date.min = date(1, 1, 1)`. -/
def parse_note_date (d : Option String) : Nat :=
  match d with
  | none => dateMin
  | some s =>
    if s.data.isEmpty then dateMin
    else
      match parseDateChars (pyStrip s.data) with
      | some n => n
      | none => dateMin

/-- The character for a decimal digit. -/
def digitChar (n : Nat) : Char :=
  Char.ofNat (48 + n)

/-- The canonical zero-padded `YYYY-MM-DD` rendering of a date. -/
def formatDate (y m d : Nat) : List Char :=
  [digitChar (y / 1000), digitChar (y / 100 % 10), digitChar (y / 10 % 10),
    digitChar (y % 10), '-', digitChar (m / 10), digitChar (m % 10), '-',
    digitChar (d / 10), digitChar (d % 10)]

/-- Insert `x` into `l` after every element `y` with `le y x`. -/
def insertLe (le : α → α → Bool) (x : α) : List α → List α
  | [] => [x]
  | y :: ys => if le y x then y :: insertLe le x ys else x :: y :: ys

/-- Stable sort by the boolean comparison `le` (model of Python
`list.sort`, see above). -/
def pySort (le : α → α → Bool) (l : List α) : List α :=
  l.foldl (fun acc x => insertLe le x acc) []

/-- Python string comparison `s <= t`: lexicographic on code points. -/
def lexLe : List Char → List Char → Bool
  | [], _ => true
  | _ :: _, [] => false
  | a :: as, b :: bs =>
    if a.toNat < b.toNat then true
    else if b.toNat < a.toNat then false
    else lexLe as bs

/-- The `Note` record from `tools/build_notes.py`.  The `src` and `out`
`Path` fields are not stored: `out` is determined as
`OUT_DIR/topic/course/slug.qmd` (recomputed by `href` below, matching
`note.out.relative_to(REPO_ROOT).as_posix()`), and `src` plays no role
in the grouping, sorting or emitting logic. -/
structure Note where
  title : String
  date : Option String
  tags : List String
  topic : String
  course : String
  slug : String
deriving DecidableEq

/-- The root-relative link target of the generated file of a note. -/
def href (n : Note) : String :=
  "notes/" ++ n.topic ++ "/" ++ n.course ++ "/" ++ n.slug ++ ".qmd"

/-- `title.lower()` as used in the sort key. -/
def lowerTitle (n : Note) : List Char :=
  n.title.data.map Char.toLower

/-- The sort key `(parse_note_date(x.date), x.title.lower())`. -/
def noteKey (n : Note) : Nat × List Char :=
  (parse_note_date n.date, lowerTitle n)

/-- Python tuple comparison of the sort keys of two notes: first the
parsed dates, then the lower-cased titles lexicographically. -/
def noteKeyLe (a b : Note) : Bool :=
  if parse_note_date a.date < parse_note_date b.date then true
  else if parse_note_date b.date < parse_note_date a.date then false
  else lexLe (lowerTitle a) (lowerTitle b)

/-- Python `x.sort(key=lambda x: (parse_note_date(x.date), x.title.lower()))`
(ascending, stable). -/
def sortAsc (l : List Note) : List Note :=
  pySort noteKeyLe l

/-- Python `sorted(notes, key=..., reverse=True)`: a stable descending
sort, i.e. the stable sort by the flipped comparison. -/
def sortDesc (l : List Note) : List Note :=
  pySort (fun a b => noteKeyLe b a) l

/-- The ordered, truncated listing rendered by `write_homepage`:
`notes_sorted[:30]`. -/
def homepageNotes (notes : List Note) : List Note :=
  (sortDesc notes).take 30

/-- One homepage bullet line: `- [title](href)` plus a literal date
suffix when the raw date string is truthy. -/
def homepageLine (n : Note) : String :=
  "- [" ++ n.title ++ "](" ++ href n ++ ")" ++
    (match n.date with
      | some d => if d.isEmpty then "" else " — " ++ d
      | none => "")

/-- The full body of `index.qmd` as written by `write_homepage`. -/
def write_homepage (notes : List Note) : List String :=
  ["---", "title: Home", "format:", "  html:", "    toc: false", "---\n",
    "# Personal Notes\n", "Browse using the sidebar (Topic → Class → Note).",
    "\n## Recent notes\n"] ++ (homepageNotes notes).map homepageLine

/-- The notes of one topic, in registry order. -/
def topicNotes (notes : List Note) (t : String) : List Note :=
  notes.filter (fun n => n.topic = t)

/-- The notes of one (topic, course) group, in registry order: the list
`tree[topic][course]` built by
`tree.setdefault(n.topic, \x7b\x7d).setdefault(n.course, []).append(n)`,
which accumulates exactly the notes of the registry with that topic and
course, in registry order. -/
def groupNotes (notes : List Note) (t c : String) : List Note :=
  (topicNotes notes t).filter (fun n => n.course = c)

/-- `sorted(tree.keys())`: the distinct topics of the registry in
Python string order. -/
def topicsOf (notes : List Note) : List String :=
  pySort (fun a b => lexLe a.data b.data) ((notes.map Note.topic).dedup)

/-- `sorted(tree[topic].keys())`: the distinct courses of one topic in
Python string order. -/
def coursesOf (notes : List Note) (t : String) : List String :=
  pySort (fun a b => lexLe a.data b.data) (((topicNotes notes t).map Note.course).dedup)

/-- A sidebar leaf `\x7b"text": ..., "href": ...\x7d`. -/
structure NavLeaf where
  text : String
  hrefPath : String
deriving DecidableEq

/-- A course subsection of the sidebar: its display name and its
leaves. -/
structure CourseBlock where
  name : String
  leaves : List NavLeaf
deriving DecidableEq

/-- A topic section of the sidebar: its display name and its course
subsections. -/
structure TopicBlock where
  name : String
  courses : List CourseBlock
deriving DecidableEq

/-- A top-level sidebar entry: either a plain link or a topic section. -/
inductive SidebarEntry where
  | link : NavLeaf → SidebarEntry
  | topicSec : TopicBlock → SidebarEntry
deriving DecidableEq

/-- The fixed first sidebar entry. -/
def homeEntry : NavLeaf :=
  ⟨"Home", "index.qmd"⟩

/-- Python `str.replace("_", " ")`, applied to display labels only. -/
def underscoresToSpaces (s : String) : String :=
  String.mk (s.data.map (fun c => if c = '_' then ' ' else c))

/-- One course subsection: the notes of the group in ascending key order,
each rendered as a leaf. -/
def courseBlock (notes : List Note) (t c : String) : CourseBlock :=
  ⟨underscoresToSpaces c, (sortAsc (groupNotes notes t c)).map (fun n => ⟨n.title, href n⟩)⟩

/-- One topic section: one course subsection per sorted course key. -/
def topicBlock (notes : List Note) (t : String) : TopicBlock :=
  ⟨underscoresToSpaces t, (coursesOf notes t).map (courseBlock notes t)⟩

/-- The sidebar contents built by `generate_quarto_yml`.  In the Python
source `sidebar_contents = [\x7b"text": "Home", "href": "index.qmd"\x7d]` is
(re-)bound *inside* the `for topic in tree` loop; with at least
one note the loop runs and the final value is the Home link, to which
the second loop appends one section per topic in `sorted(tree.keys())`
order.  With an empty registry the name `sidebar_contents` is never
assigned and the function raises `NameError` before writing
`_quarto.yml`, which `none` models. -/
def generate_quarto_yml (notes : List Note) : Option (List SidebarEntry) :=
  match notes with
  | [] => none
  | _ :: _ =>
    some (SidebarEntry.link homeEntry ::
      (topicsOf notes).map (fun t => SidebarEntry.topicSec (topicBlock notes t)))

/-- The registry notes flattened in navigation order: topics sorted,
courses sorted within a topic, notes sorted by key within a course. -/
def navNotes (notes : List Note) : List Note :=
  ((topicsOf notes).map (fun t =>
    ((coursesOf notes t).map (fun c => sortAsc (groupNotes notes t c))).flatten)).flatten

/-- The note leaves below one top-level sidebar entry. -/
def entryLeaves : SidebarEntry → List NavLeaf
  | .link _ => []
  | .topicSec tb => (tb.courses.map CourseBlock.leaves).flatten

/-- All note leaves of the sidebar, in navigation order. -/
def sidebarNoteLeaves (sb : List SidebarEntry) : List NavLeaf :=
  (sb.map entryLeaves).flatten

/-- Display name of a top-level sidebar entry. -/
def entryName : SidebarEntry → String
  | .link l => l.text
  | .topicSec tb => tb.name

/-- The key character class of `META_LINE_RE`: `[A-Za-z0-9_\-]`. -/
def isKeyChar (c : Char) : Bool :=
  isAsciiUpper c || isAsciiLower c || isAsciiDigit c || c = '_' || c = '-'

/-- Python `line.strip() == ""`. -/
def isBlankLine (l : String) : Bool :=
  (pyStrip l.data).isEmpty

/-- Python `line.lstrip().startswith("%")`. -/
def isCommentLine (l : String) : Bool :=
  match l.data.dropWhile pyIsSpace with
  | [] => false
  | c :: _ => c = '%'

/-- Matching a line against
`META_LINE_RE = ^\s*%\s*([A-Za-z0-9_\-]+)\s*:\s*(.*?)\s*$` and, on
success, producing the recorded pair `(key.strip().lower(), value.strip())`.
The regex is deterministic: the key group is a maximal nonempty run of
key characters (backtracking it cannot help, because the following
`\s*:` cannot consume a key character), the lazy value group together
with `\s*$` trims surrounding whitespace from the remainder. -/
def matchMetaLine (l : String) : Option (String × String) :=
  match l.data.dropWhile pyIsSpace with
  | '%' :: rest =>
    let afterMarker := rest.dropWhile pyIsSpace
    let key := afterMarker.takeWhile isKeyChar
    if key.isEmpty then none
    else
      match (afterMarker.dropWhile isKeyChar).dropWhile pyIsSpace with
      | ':' :: rest2 => some (String.mk (key.map Char.toLower), String.mk (pyStrip rest2))
      | _ => none
  | _ => none

/-- `meta[k] = v` on the association-list model of the Python dict:
overwrite the value in place if the key is present, append otherwise. -/
def metaInsert (m : List (String × String)) (k v : String) : List (String × String) :=
  if k ∈ m.map Prod.fst then m.map (fun kv => if kv.1 = k then (k, v) else kv)
  else m ++ [(k, v)]

/-- `meta.get(k)` on the association-list model. -/
def lookupMeta (m : List (String × String)) (k : String) : Option String :=
  (m.find? (fun kv => kv.1 = k)).map Prod.snd

/-- The scanning loop of `parse_tex_metadata`: skip blank lines, stop at
the first non-blank non-comment line, record every comment line matching
`META_LINE_RE`. -/
def parseMetaLines : List String → List (String × String) → List (String × String)
  | [], acc => acc
  | l :: ls, acc =>
    if isBlankLine l then parseMetaLines ls acc
    else if isCommentLine l then
      match matchMetaLine l with
      | some kv => parseMetaLines ls (metaInsert acc kv.1 kv.2)
      | none => parseMetaLines ls acc
    else acc

/-- `parse_tex_metadata` from `tools/build_notes.py`, on the lines of the
input document (without trailing newlines, which every clause of the
scan strips anyway). -/
def parse_tex_metadata (doc : List String) : List (String × String) :=
  parseMetaLines doc []

/-- The §4.1 contract of the spec, stated as written there: take the
leading lines while they are blank or comment-marked, keep the ones
matching the metadata pattern, and fold them into a mapping with
later keys overwriting earlier ones. -/
def parse_tex_metadata_spec (doc : List String) : List (String × String) :=
  ((doc.takeWhile (fun l => isBlankLine l || isCommentLine l)).filterMap matchMetaLine).foldl
    (fun m kv => metaInsert m kv.1 kv.2) []

/-- The diagnostic of `infer_topic_course`. -/
def pathErrorMessage : String :=
  "Expected notes_staging/<topic>/<course>/<file>.tex but got a shallower path"

/-- `infer_topic_course` from `tools/build_notes.py`, on the components
of the path relative to the staging root: fewer than 3 components is a
fatal error (`die`, modelled as `Except.error`); otherwise the first two
components are returned raw. -/
def infer_topic_course (parts : List String) : Except String (String × String) :=
  match parts with
  | t :: c :: _ :: _ => Except.ok (t, c)
  | _ => Except.error pathErrorMessage

/-- An input file: the components of its path relative to the staging
root, and its lines. -/
structure TexFile where
  parts : List String
  lines : List String
deriving DecidableEq

/-- Python `str.title()` at ASCII scope: the flag records whether the
previous character was a cased letter. -/
def pyTitleAux : Bool → List Char → List Char
  | _, [] => []
  | prevCased, c :: cs =>
    if isAsciiUpper c || isAsciiLower c then
      (if prevCased then Char.toLower c else Char.toUpper c) :: pyTitleAux true cs
    else c :: pyTitleAux false cs

/-- Python `str.title()`. -/
def pyTitle (l : List Char) : List Char :=
  pyTitleAux false l

/-- `pathlib.Path.stem`: the file name without its last suffix (a
leading dot does not start a suffix). -/
def stemOf (l : List Char) : List Char :=
  match l.reverse.dropWhile (fun c => ¬c = '.') with
  | [] => l
  | _ :: rest => if rest.isEmpty then l else rest.reverse

/-- Python `str.replace(a, b)` for single characters. -/
def replaceChar (a b : Char) (l : List Char) : List Char :=
  l.map (fun c => if c = a then b else c)

/-- Python `s.split(",")` (never returns an empty list; empty pieces are
kept). -/
def splitComma : List Char → List (List Char)
  | [] => [[]]
  | c :: cs =>
    match splitComma cs with
    | [] => [[c]]
    | g :: gs => if c = ',' then [] :: g :: gs else (c :: g) :: gs

/-- `[t.strip() for t in s.split(",") if t.strip()]`. -/
def parseTags (s : String) : List String :=
  ((splitComma s.data).map pyStrip).filterMap
    (fun t => if t.isEmpty then none else some (String.mk t))

/-- Build one `Note` from an input file, as in `build_notes_index`:
metadata, raw topic and course from the path (fatal on shallow paths),
sanitized topic/course, title from metadata with the
`p.stem.replace("_", " ").replace("-", " ").title()` fallback (also used
when the metadata title is empty, via Python `or`), raw date string,
comma-split tags, slug from the title. -/
def build_note (f : TexFile) : Except String Note :=
  match infer_topic_course f.parts with
  | Except.error e => Except.error e
  | Except.ok tc =>
    let meta := parse_tex_metadata f.lines
    let filename := f.parts.getLastD ""
    let fallback := String.mk (pyTitle (replaceChar '-' ' '
      (replaceChar '_' ' ' (stemOf filename.data))))
    let title := match lookupMeta meta "title" with
      | some t => if t.data.isEmpty then fallback else t
      | none => fallback
    let tags := parseTags (match lookupMeta meta "tags" with
      | some t => t
      | none => "")
    Except.ok ⟨title, lookupMeta meta "date", tags, safe_segment tc.1, safe_segment tc.2,
      slugify title⟩

/-- `build_notes_index`: build the registry in discovery order, aborting
on the first bad path. -/
def build_notes_index : List TexFile → Except String (List Note)
  | [] => Except.ok []
  | f :: fs =>
    match build_note f with
    | Except.error e => Except.error e
    | Except.ok n =>
      match build_notes_index fs with
      | Except.error e => Except.error e
      | Except.ok ns => Except.ok (n :: ns)

/-- The two output artifacts of a successful run that this development
models. -/
structure SiteOutput where
  homepage : List String
  sidebar : List SidebarEntry
deriving DecidableEq

/-- Diagnostic of `main` when no input file is found. -/
def noTexMessage : String :=
  "No .tex files found under notes_staging"

/-- The `NameError` raised by `generate_quarto_yml` on an empty
registry. -/
def nameErrorMessage : String :=
  "NameError: name sidebar_contents is not defined"

/-- The pipeline of `main` on its inputs: abort when no input files,
build the registry (aborting on the first bad path, before any output
directory is touched — `build_notes_index` runs before
`clean_generated_output` and all writes in `main`), then emit.  The
external converter, the output-directory cleanup and the asset copies
are collaborators outside this model. -/
def mainModel (files : List TexFile) : Except String SiteOutput :=
  if files.isEmpty then Except.error noTexMessage
  else
    match build_notes_index files with
    | Except.error e => Except.error e
    | Except.ok notes =>
      match generate_quarto_yml notes with
      | none => Except.error nameErrorMessage
      | some sb => Except.ok ⟨write_homepage notes, sb⟩

/-- A small registry with pairwise distinct sort keys. -/
def sampleRegistry : List Note :=
  [⟨"Newtons Laws", some "2024-01-05", ["classical"], "physics", "mechanics", "newtons-laws"⟩,
   ⟨"Waves", none, [], "physics", "optics", "waves"⟩,
   ⟨"Rings", some "2023-11-02", [], "algebra", "groups", "rings"⟩]

/-- Two undated notes whose sort keys tie (titles differing only in
case). -/
def tieNoteA : Note :=
  ⟨"A", none, [], "t", "c", "a"⟩

/-- See `tieNoteA`. -/
def tieNoteB : Note :=
  ⟨"a", none, [], "t", "c", "a"⟩

/-- A note dated `0001-01-01`, whose parsed date coincides with the
sentinel. -/
def earlyDated : Note :=
  ⟨"alpha", some "0001-01-01", [], "t", "c", "alpha"⟩

/-- An undated note sorting after `earlyDated` by title. -/
def laterUndated : Note :=
  ⟨"beta", none, [], "t", "c", "beta"⟩

/-- The dated note of the §8 two-note scenario. -/
def scenarioDated : Note :=
  ⟨"alpha", some "2024-03-01", [], "topic", "course", "alpha"⟩

/-- The undated note of the §8 two-note scenario. -/
def scenarioUndated : Note :=
  ⟨"beta", none, [], "topic", "course", "beta"⟩

/-- An input file two levels deep (missing the course level). -/
def shallowFile : TexFile :=
  ⟨["topic", "file.tex"], []⟩

theorem toNat_ofNat_valid (n : Nat) (h : n.isValidChar) : (Char.ofNat n).toNat = n := by
  rw [Char.ofNat, dif_pos h]
  rfl

theorem toLower_toNat_of_upper (c : Char) (h1 : 65 ≤ c.toNat) (h2 : c.toNat ≤ 90) :
    (Char.toLower c).toNat = c.toNat + 32 := by
  have hv : (c.toNat + 32).isValidChar := Or.inl (by omega)
  rw [Char.toLower]
  show (if c.toNat ≥ 65 ∧ c.toNat ≤ 90 then Char.ofNat (c.toNat + 32) else c).toNat = c.toNat + 32
  rw [if_pos ⟨h1, h2⟩]
  exact toNat_ofNat_valid _ hv

theorem toLower_eq_self (c : Char) (h : ¬(65 ≤ c.toNat ∧ c.toNat ≤ 90)) :
    Char.toLower c = c := by
  rw [Char.toLower]
  show (if c.toNat ≥ 65 ∧ c.toNat ≤ 90 then Char.ofNat (c.toNat + 32) else c) = c
  rw [if_neg h]

theorem isAsciiUpper_toLower (c : Char) : isAsciiUpper (Char.toLower c) = false := by
  by_cases h : 65 ≤ c.toNat ∧ c.toNat ≤ 90
  · have ht := toLower_toNat_of_upper c h.1 h.2
    simp [isAsciiUpper, ht]
    omega
  · rw [toLower_eq_self c h]
    simp [isAsciiUpper]
    omega

theorem toLower_toLower (c : Char) : Char.toLower (Char.toLower c) = Char.toLower c := by
  have h := isAsciiUpper_toLower c
  simp [isAsciiUpper] at h
  exact toLower_eq_self _ (by omega)

theorem subRunsAux_eq_self (p : Char → Bool) (r : Char) (b : Bool) (l : List Char)
    (h : ∀ c ∈ l, p c = false) : subRunsAux p r b l = l := by
  induction l generalizing b with
  | nil => rfl
  | cons c cs ih =>
    have hc : p c = false := h c (List.mem_cons_self c cs)
    simp only [subRunsAux, hc, Bool.false_eq_true, if_false]
    rw [ih false (fun d hd => h d (List.mem_cons_of_mem _ hd))]

theorem mem_subRunsAux (p : Char → Bool) (r : Char) (b : Bool) (l : List Char) (c : Char)
    (h : c ∈ subRunsAux p r b l) : c = r ∨ (c ∈ l ∧ p c = false) := by
  induction l generalizing b with
  | nil => simp [subRunsAux] at h
  | cons d ds ih =>
    by_cases hp : p d = true
    · cases b with
      | true =>
        simp only [subRunsAux, hp, if_true] at h
        rcases ih true h with h1 | h2
        · exact Or.inl h1
        · exact Or.inr ⟨List.mem_cons_of_mem _ h2.1, h2.2⟩
      | false =>
        simp [subRunsAux, hp] at h
        rcases h with h1 | h1
        · exact Or.inl h1
        · rcases ih true h1 with h2 | h3
          · exact Or.inl h2
          · exact Or.inr ⟨List.mem_cons_of_mem _ h3.1, h3.2⟩
    · simp [subRunsAux, hp] at h
      rcases h with h1 | h1
      · subst h1
        exact Or.inr ⟨List.mem_cons_self c ds, by simpa using hp⟩
      · rcases ih false h1 with h2 | h3
        · exact Or.inl h2
        · exact Or.inr ⟨List.mem_cons_of_mem _ h3.1, h3.2⟩

theorem subRunsAux_true_head (p : Char → Bool) (r : Char) (l : List Char) (c : Char)
    (h : (subRunsAux p r true l).head? = some c) : p c = false := by
  induction l with
  | nil => simp [subRunsAux] at h
  | cons d ds ih =>
    by_cases hp : p d = true
    · simp only [subRunsAux, hp, if_true] at h
      exact ih h
    · simp [subRunsAux, hp] at h
      subst h
      simpa using hp

theorem chain'_subRunsAux (p : Char → Bool) (r : Char) (b : Bool) (l : List Char) :
    (subRunsAux p r b l).Chain' (fun a d => ¬(p a = true ∧ p d = true)) := by
  induction l generalizing b with
  | nil => simp [subRunsAux]
  | cons c cs ih =>
    by_cases hp : p c = true
    · cases b with
      | true =>
        rw [show subRunsAux p r true (c :: cs) = subRunsAux p r true cs from by
          simp [subRunsAux, hp]]
        exact ih true
      | false =>
        rw [show subRunsAux p r false (c :: cs) = r :: subRunsAux p r true cs from by
          simp [subRunsAux, hp]]
        refine List.chain'_cons'.mpr ⟨?_, ih true⟩
        intro y hy hcon
        have hyf : p y = false := subRunsAux_true_head p r cs y (Option.mem_def.mp hy)
        rw [hyf] at hcon
        exact Bool.false_ne_true hcon.2
    · rw [show subRunsAux p r b (c :: cs) = c :: subRunsAux p r false cs from by
        simp [subRunsAux, hp]]
      refine List.chain'_cons'.mpr ⟨?_, ih false⟩
      intro y hy hcon
      exact hp hcon.1

theorem subRuns_eq_self_of_no (p : Char → Bool) (r : Char) (l : List Char)
    (h : ∀ c ∈ l, p c = false) : subRuns p r l = l :=
  subRunsAux_eq_self p r false l h

theorem subRuns_eq_self_of_chain (p : Char → Bool) (r : Char)
    (hr : ∀ c, p c = true → c = r) (l : List Char)
    (hc : l.Chain' (fun a d => ¬(p a = true ∧ p d = true))) :
    subRuns p r l = l := by
  suffices h : ∀ m : List Char, m.Chain' (fun a d => ¬(p a = true ∧ p d = true)) →
      subRunsAux p r false m = m ∧
        ((∀ c, m.head? = some c → p c = false) → subRunsAux p r true m = m) by
    exact (h l hc).1
  intro m
  induction m with
  | nil => exact fun _ => ⟨rfl, fun _ => rfl⟩
  | cons c cs ih =>
    intro hch
    have hch2 : cs.Chain' (fun a d => ¬(p a = true ∧ p d = true)) := hch.tail
    have hrel : ∀ y, cs.head? = some y → ¬(p c = true ∧ p y = true) := by
      intro y hy
      exact (List.chain'_cons'.mp hch).1 y (Option.mem_def.mpr hy)
    have hmain : subRunsAux p r false (c :: cs) = c :: cs := by
      by_cases hp : p c = true
      · have hcr : c = r := hr c hp
        have hhead : ∀ y, cs.head? = some y → p y = false := by
          intro y hy
          cases hpy : p y
          · rfl
          · exact absurd ⟨hp, hpy⟩ (hrel y hy)
        rw [show subRunsAux p r false (c :: cs) = r :: subRunsAux p r true cs from by
          simp [subRunsAux, hp]]
        rw [(ih hch2).2 hhead, hcr]
      · rw [show subRunsAux p r false (c :: cs) = c :: subRunsAux p r false cs from by
          simp [subRunsAux, hp]]
        rw [(ih hch2).1]
    refine ⟨hmain, ?_⟩
    intro hhead0
    have hpc : p c = false := hhead0 c rfl
    rw [show subRunsAux p r true (c :: cs) = c :: subRunsAux p r false cs from by
      simp [subRunsAux, hpc]]
    rw [(ih hch2).1]

theorem dropWhile_head_false (p : Char → Bool) (l : List Char) (c : Char)
    (h : (l.dropWhile p).head? = some c) : p c = false := by
  induction l with
  | nil => simp at h
  | cons d ds ih =>
    by_cases hp : p d = true
    · rw [List.dropWhile_cons_of_pos hp] at h
      exact ih h
    · rw [List.dropWhile_cons_of_neg hp] at h
      simp only [List.head?_cons, Option.some.injEq] at h
      subst h
      simpa using hp

theorem dropWhile_eq_self_of_head (p : Char → Bool) (l : List Char)
    (h : ∀ c, l.head? = some c → p c = false) : l.dropWhile p = l := by
  cases l with
  | nil => rfl
  | cons c cs => exact List.dropWhile_cons_of_neg (by simp [h c rfl])

theorem stripEnds_within (p : Char → Bool) (l : List Char) : stripEnds p l <:+: l := by
  have h1 : l.dropWhile p <:+ l := List.dropWhile_suffix p
  have h2 : (l.dropWhile p).reverse.dropWhile p <:+ (l.dropWhile p).reverse :=
    List.dropWhile_suffix p
  have h3 : ((l.dropWhile p).reverse.dropWhile p).reverse <+: l.dropWhile p := by
    simpa using List.reverse_prefix.mpr h2
  exact h3.isInfix.trans h1.isInfix

theorem mem_of_mem_stripEnds (p : Char → Bool) (l : List Char) (c : Char)
    (h : c ∈ stripEnds p l) : c ∈ l :=
  (stripEnds_within p l).sublist.subset h

theorem stripEnds_head_false (p : Char → Bool) (l : List Char) (c : Char)
    (h : (stripEnds p l).head? = some c) : p c = false := by
  unfold stripEnds at h
  rw [List.head?_reverse] at h
  have hsuf : (l.dropWhile p).reverse.dropWhile p <:+ (l.dropWhile p).reverse :=
    List.dropWhile_suffix p
  obtain ⟨t, ht⟩ := hsuf
  have hg : ((l.dropWhile p).reverse).getLast? = some c := by
    rw [← ht, List.getLast?_append, h]
    rfl
  rw [List.getLast?_reverse] at hg
  exact dropWhile_head_false p _ c hg

theorem stripEnds_getLast_false (p : Char → Bool) (l : List Char) (c : Char)
    (h : (stripEnds p l).getLast? = some c) : p c = false := by
  unfold stripEnds at h
  rw [List.getLast?_reverse] at h
  exact dropWhile_head_false p _ c h

theorem stripEnds_eq_self (p : Char → Bool) (l : List Char)
    (hh : ∀ c, l.head? = some c → p c = false)
    (hl : ∀ c, l.getLast? = some c → p c = false) : stripEnds p l = l := by
  unfold stripEnds
  rw [dropWhile_eq_self_of_head p l hh]
  rw [dropWhile_eq_self_of_head p l.reverse
    (by intro c hc; rw [List.head?_reverse] at hc; exact hl c hc)]
  exact List.reverse_reverse l

theorem stripEnds_eq_self_of_no (p : Char → Bool) (l : List Char)
    (h : ∀ c ∈ l, p c = false) : stripEnds p l = l :=
  stripEnds_eq_self p l
    (fun c hc => h c (List.mem_of_mem_head? (Option.mem_def.mpr hc)))
    (fun c hc => h c (List.mem_of_getLast?_eq_some hc))

theorem char_eq_of_toNat_eq {c d : Char} (h : c.toNat = d.toNat) : c = d := by
  have h2 := congrArg Char.ofNat h
  rwa [Char.ofNat_toNat, Char.ofNat_toNat] at h2

theorem char_eq_iff_toNat (c d : Char) : c = d ↔ c.toNat = d.toNat :=
  ⟨fun h => by rw [h], char_eq_of_toNat_eq⟩

theorem toNat_space : (' ').toNat = 32 := rfl

theorem toNat_tab : ('\t').toNat = 9 := rfl

theorem toNat_lf : ('\n').toNat = 10 := rfl

theorem toNat_cr : ('\r').toNat = 13 := rfl

theorem toNat_vt : ('\x0b').toNat = 11 := rfl

theorem toNat_ff : ('\x0c').toNat = 12 := rfl

theorem toNat_underscore : ('_').toNat = 95 := rfl

theorem toNat_hyphen : ('-').toNat = 45 := rfl

theorem pyIsSpace_eq_true_iff (c : Char) : pyIsSpace c = true ↔
    (c.toNat = 32 ∨ c.toNat = 9 ∨ c.toNat = 10 ∨ c.toNat = 13 ∨
      c.toNat = 11 ∨ c.toNat = 12) := by
  simp [pyIsSpace, char_eq_iff_toNat, toNat_space, toNat_tab, toNat_lf, toNat_cr,
    toNat_vt, toNat_ff]
  tauto

theorem spaceOrUnderscore_eq_true_iff (c : Char) : spaceOrUnderscore c = true ↔
    (c.toNat = 32 ∨ c.toNat = 9 ∨ c.toNat = 10 ∨ c.toNat = 13 ∨
      c.toNat = 11 ∨ c.toNat = 12 ∨ c.toNat = 95) := by
  simp [spaceOrUnderscore, pyIsSpace_eq_true_iff, char_eq_iff_toNat, toNat_underscore]
  tauto

theorem keepChar_eq_true_iff (c : Char) : keepChar c = true ↔
    ((65 ≤ c.toNat ∧ c.toNat ≤ 90) ∨ (97 ≤ c.toNat ∧ c.toNat ≤ 122) ∨
      (48 ≤ c.toNat ∧ c.toNat ≤ 57) ∨ c.toNat = 95 ∨
      (c.toNat = 32 ∨ c.toNat = 9 ∨ c.toNat = 10 ∨ c.toNat = 13 ∨
        c.toNat = 11 ∨ c.toNat = 12) ∨ c.toNat = 45) := by
  simp [keepChar, pyIsWord, isAsciiUpper, isAsciiLower, isAsciiDigit,
    pyIsSpace_eq_true_iff, char_eq_iff_toNat, toNat_underscore, toNat_hyphen]
  tauto

theorem slugifyChars_mem (s : List Char) (c : Char) (h : c ∈ slugifyChars s) :
    (97 ≤ c.toNat ∧ c.toNat ≤ 122) ∨ (48 ≤ c.toNat ∧ c.toNat ≤ 57) ∨ c.toNat = 45 := by
  simp only [slugifyChars] at h
  have h1 := mem_of_mem_stripEnds _ _ _ h
  rcases mem_subRunsAux _ _ _ _ _ h1 with h2 | h2
  · subst h2
    right; right; rfl
  · rcases mem_subRunsAux _ _ _ _ _ h2.1 with h3 | h3
    · subst h3
      right; right; rfl
    · have hso : spaceOrUnderscore c = false := h3.2
      have hk : keepChar c = true := (List.mem_filter.mp h3.1).2
      have hmm : c ∈ (pyStrip s).map Char.toLower := (List.mem_filter.mp h3.1).1
      obtain ⟨d, _, hd⟩ := List.mem_map.mp hmm
      have hup : isAsciiUpper c = false := hd ▸ isAsciiUpper_toLower d
      have hk2 := (keepChar_eq_true_iff c).mp hk
      have hso2 : ¬spaceOrUnderscore c = true := by simp [hso]
      rw [spaceOrUnderscore_eq_true_iff] at hso2
      simp only [isAsciiUpper] at hup
      simp at hup
      omega

theorem slugifyChars_chain (s : List Char) :
    (slugifyChars s).Chain' (fun a b => ¬(a = '-' ∧ b = '-')) := by
  have hc := chain'_subRunsAux (fun c => c = '-') '-' false
    (subRuns spaceOrUnderscore '-'
      (((pyStrip s).map Char.toLower).filter keepChar))
  have hc2 := hc.imp (S := fun a b : Char => ¬(a = '-' ∧ b = '-'))
    (by intro a b hab; simpa using hab)
  exact List.Chain'.infix hc2 (stripEnds_within _ _)

theorem slugifyChars_head (s : List Char) (c : Char)
    (h : (slugifyChars s).head? = some c) : ((c = '-' : Bool)) = false := by
  simp only [slugifyChars] at h
  exact stripEnds_head_false _ _ _ h

theorem slugifyChars_getLast (s : List Char) (c : Char)
    (h : (slugifyChars s).getLast? = some c) : ((c = '-' : Bool)) = false := by
  simp only [slugifyChars] at h
  exact stripEnds_getLast_false _ _ _ h

theorem safeSegmentChars_mem (s : List Char) (c : Char) (h : c ∈ safeSegmentChars s) :
    pyIsSpace c = false ∧ keepChar c = true := by
  simp only [safeSegmentChars] at h
  rcases mem_subRunsAux _ _ _ _ _ h with h2 | h2
  · subst h2
    exact ⟨by decide, by decide⟩
  · exact ⟨h2.2, (List.mem_filter.mp h2.1).2⟩

theorem slugifyChars_idem (s : List Char) :
    slugifyChars (slugifyChars s) = slugifyChars s := by
  have hmem := slugifyChars_mem s
  have hns : ∀ c ∈ slugifyChars s, pyIsSpace c = false := by
    intro c hc
    cases hps : pyIsSpace c
    · rfl
    · have h2 := (pyIsSpace_eq_true_iff c).mp hps
      have h3 := hmem c hc
      omega
  have htl : ∀ c ∈ slugifyChars s, Char.toLower c = c := by
    intro c hc
    have h3 := hmem c hc
    exact toLower_eq_self c (by omega)
  have hkeep : ∀ c ∈ slugifyChars s, keepChar c = true := by
    intro c hc
    have h3 := hmem c hc
    exact (keepChar_eq_true_iff c).mpr (by omega)
  have hnsu : ∀ c ∈ slugifyChars s, spaceOrUnderscore c = false := by
    intro c hc
    cases hps : spaceOrUnderscore c
    · rfl
    · have h2 := (spaceOrUnderscore_eq_true_iff c).mp hps
      have h3 := hmem c hc
      omega
  show stripEnds (fun c => c = '-')
      (subRuns (fun c => c = '-') '-'
        (subRuns spaceOrUnderscore '-'
          (((pyStrip (slugifyChars s)).map Char.toLower).filter keepChar))) =
    slugifyChars s
  rw [show pyStrip (slugifyChars s) = slugifyChars s from
    stripEnds_eq_self_of_no _ _ hns]
  rw [(List.map_congr_left htl).trans (List.map_id _)]
  rw [List.filter_eq_self.mpr hkeep]
  rw [subRuns_eq_self_of_no _ _ _ hnsu]
  rw [subRuns_eq_self_of_chain _ _ (by intro c h; simpa using h) _
    ((slugifyChars_chain s).imp (by intro a b hab; simpa using hab))]
  exact stripEnds_eq_self _ _
    (fun c hc => slugifyChars_head s c hc)
    (fun c hc => slugifyChars_getLast s c hc)

theorem safeSegmentChars_idem (s : List Char) :
    safeSegmentChars (safeSegmentChars s) = safeSegmentChars s := by
  have hns : ∀ c ∈ safeSegmentChars s, pyIsSpace c = false :=
    fun c hc => (safeSegmentChars_mem s c hc).1
  have hkeep : ∀ c ∈ safeSegmentChars s, keepChar c = true :=
    fun c hc => (safeSegmentChars_mem s c hc).2
  show subRuns pyIsSpace '_' ((pyStrip (safeSegmentChars s)).filter keepChar) =
    safeSegmentChars s
  rw [show pyStrip (safeSegmentChars s) = safeSegmentChars s from
    stripEnds_eq_self_of_no _ _ hns]
  rw [List.filter_eq_self.mpr hkeep]
  exact subRuns_eq_self_of_no _ _ _ hns

theorem slugify_eval (s : String) : slugify s =
    if (slugifyChars s.data).isEmpty then "note" else String.mk (slugifyChars s.data) := rfl

theorem safe_segment_eval (s : String) : safe_segment s =
    if (safeSegmentChars s.data).isEmpty then "unknown"
    else String.mk (safeSegmentChars s.data) := rfl

theorem slugify_idem (s : String) : slugify (slugify s) = slugify s := by
  by_cases he : (slugifyChars s.data).isEmpty
  · have h1 : slugify s = "note" := by rw [slugify_eval, if_pos he]
    rw [h1]
    decide
  · have h1 : slugify s = String.mk (slugifyChars s.data) := by rw [slugify_eval, if_neg he]
    rw [h1, slugify_eval]
    show (if (slugifyChars (slugifyChars s.data)).isEmpty then "note"
      else String.mk (slugifyChars (slugifyChars s.data))) = String.mk (slugifyChars s.data)
    rw [slugifyChars_idem, if_neg he]

theorem safe_segment_idem (s : String) : safe_segment (safe_segment s) = safe_segment s := by
  by_cases he : (safeSegmentChars s.data).isEmpty
  · have h1 : safe_segment s = "unknown" := by rw [safe_segment_eval, if_pos he]
    rw [h1]
    decide
  · have h1 : safe_segment s = String.mk (safeSegmentChars s.data) := by
      rw [safe_segment_eval, if_neg he]
    rw [h1, safe_segment_eval]
    show (if (safeSegmentChars (safeSegmentChars s.data)).isEmpty then "unknown"
      else String.mk (safeSegmentChars (safeSegmentChars s.data))) =
      String.mk (safeSegmentChars s.data)
    rw [safeSegmentChars_idem, if_neg he]

/-- C7: for every input string, `slugify` lowercases, strips, removes
characters outside word characters/whitespace/hyphen, collapses
whitespace and underscore runs to single hyphens, collapses repeated
hyphens, trims hyphens from the ends, and falls back to `"note"` when
the result would be empty; in particular `"C++ & Friends!"` sanitizes to
`"c-friends"`.  Stated as: the documented example, two empty-result
fallback cases, non-emptiness of the output, and the structural
consequences of the pipeline (every output character is a lower-case
letter, a digit or a hyphen; no two adjacent hyphens survive). -/
theorem C7_slugify_spec :
    slugify "C++ & Friends!" = "c-friends" ∧
    slugify "" = "note" ∧
    slugify " _-_ " = "note" ∧
    (∀ s : String, slugify s ≠ "") ∧
    (∀ (s : String) (c : Char), c ∈ (slugify s).data →
      (97 ≤ c.toNat ∧ c.toNat ≤ 122) ∨ (48 ≤ c.toNat ∧ c.toNat ≤ 57) ∨ c.toNat = 45) ∧
    (∀ s : String, (slugify s).data.Chain' (fun a b => ¬(a = '-' ∧ b = '-'))) := by
  refine ⟨by decide, by decide, by decide, ?_, ?_, ?_⟩
  · intro s
    rw [slugify_eval]
    by_cases he : (slugifyChars s.data).isEmpty
    · rw [if_pos he]
      decide
    · rw [if_neg he]
      intro hcon
      apply he
      have : (String.mk (slugifyChars s.data)).data = ("" : String).data := by rw [hcon]
      simpa [List.isEmpty_iff] using this
  · intro s c hc
    rw [slugify_eval] at hc
    by_cases he : (slugifyChars s.data).isEmpty
    · rw [if_pos he] at hc
      have : c ∈ ['n', 'o', 't', 'e'] := hc
      fin_cases this <;> decide
    · rw [if_neg he] at hc
      exact slugifyChars_mem s.data c hc
  · intro s
    rw [slugify_eval]
    by_cases he : (slugifyChars s.data).isEmpty
    · rw [if_pos he]
      simp [List.chain'_cons]
    · rw [if_neg he]
      exact slugifyChars_chain s.data

/-- Closed witness for C7, instantiating the quantified conjuncts at a
concrete input and character. -/
theorem C7_slugify_spec_witness :
    slugify "C++ & Friends!" ≠ "" ∧
    ('c' ∈ (slugify "C++ & Friends!").data ∧
      ((97 ≤ 'c'.toNat ∧ 'c'.toNat ≤ 122) ∨
        (48 ≤ 'c'.toNat ∧ 'c'.toNat ≤ 57) ∨ 'c'.toNat = 45)) ∧
    (slugify "a  b").data.Chain' (fun a b => ¬(a = '-' ∧ b = '-')) :=
  ⟨C7_slugify_spec.2.2.2.1 "C++ & Friends!",
    ⟨by decide, C7_slugify_spec.2.2.2.2.1 "C++ & Friends!" 'c' (by decide)⟩,
    C7_slugify_spec.2.2.2.2.2 "a  b"⟩

/-- C8: for every input string, `safe_segment` strips, removes characters
outside word characters/whitespace/hyphen, collapses internal whitespace
runs to single underscores, and never returns the empty string, falling
back to `"unknown"` when the result would be empty.  Stated as: a
documented collapsing example, the fallback case, non-emptiness, and the
structural consequences (no whitespace survives, every character is in
the kept class or an underscore). -/
theorem C8_safe_segment_spec :
    safe_segment "  a  b\tc " = "a_b_c" ∧
    safe_segment "!!!" = "unknown" ∧
    (∀ s : String, safe_segment s ≠ "") ∧
    (∀ (s : String) (c : Char), c ∈ (safe_segment s).data →
      pyIsSpace c = false ∧ keepChar c = true) := by
  refine ⟨by decide, by decide, ?_, ?_⟩
  · intro s
    rw [safe_segment_eval]
    by_cases he : (safeSegmentChars s.data).isEmpty
    · rw [if_pos he]
      decide
    · rw [if_neg he]
      intro hcon
      apply he
      have : (String.mk (safeSegmentChars s.data)).data = ("" : String).data := by rw [hcon]
      simpa [List.isEmpty_iff] using this
  · intro s c hc
    rw [safe_segment_eval] at hc
    by_cases he : (safeSegmentChars s.data).isEmpty
    · rw [if_pos he] at hc
      have : c ∈ ['u', 'n', 'k', 'n', 'o', 'w', 'n'] := hc
      fin_cases this <;> exact ⟨by decide, by decide⟩
    · rw [if_neg he] at hc
      exact safeSegmentChars_mem s.data c hc

/-- Closed witness for C8, instantiating the quantified conjuncts at a
concrete input and character. -/
theorem C8_safe_segment_spec_witness :
    safe_segment "Course 101" ≠ "" ∧
    ('1' ∈ (safe_segment "Course 101").data ∧
      pyIsSpace '1' = false ∧ keepChar '1' = true) :=
  ⟨C8_safe_segment_spec.2.2.1 "Course 101",
    by decide, C8_safe_segment_spec.2.2.2 "Course 101" '1' (by decide)⟩

/-- C9: both sanitizers are idempotent: applying `slugify` or
`safe_segment` a second time does not change the result, because each
output contains no character its own passes would further transform. -/
theorem C9_sanitizers_idempotent (s : String) :
    slugify (slugify s) = slugify s ∧
    safe_segment (safe_segment s) = safe_segment s :=
  ⟨slugify_idem s, safe_segment_idem s⟩

theorem digitChar_toNat (n : Nat) (h : n ≤ 9) : (digitChar n).toNat = 48 + n :=
  toNat_ofNat_valid _ (Or.inl (by omega))

theorem isAsciiDigit_digitChar (n : Nat) (h : n ≤ 9) : isAsciiDigit (digitChar n) = true := by
  simp [isAsciiDigit, digitChar_toNat n h]
  omega

theorem digitVal_digitChar (n : Nat) (h : n ≤ 9) : digitVal (digitChar n) = n := by
  simp [digitVal, digitChar_toNat n h]

theorem pyIsSpace_digitChar (n : Nat) (h : n ≤ 9) : pyIsSpace (digitChar n) = false := by
  cases hps : pyIsSpace (digitChar n)
  · rfl
  · have h2 := (pyIsSpace_eq_true_iff _).mp hps
    rw [digitChar_toNat n h] at h2
    omega

theorem daysInMonth_le (y m : Nat) : daysInMonth y m ≤ 31 := by
  unfold daysInMonth
  split <;> split <;> omega

theorem formatDate_strip (y m d : Nat) (hy : y ≤ 9999) (hm : m ≤ 12) (hd : d ≤ 31) :
    pyStrip (formatDate y m d) = formatDate y m d := by
  apply stripEnds_eq_self_of_no
  intro c hc
  have hq1 : y / 1000 ≤ 9 := by omega
  have hq2 : y / 100 % 10 ≤ 9 := by omega
  have hq3 : y / 10 % 10 ≤ 9 := by omega
  have hq4 : y % 10 ≤ 9 := by omega
  have hm10 : m / 10 ≤ 9 := by omega
  have hm1 : m % 10 ≤ 9 := by omega
  have hd10 : d / 10 ≤ 9 := by omega
  have hd1 : d % 10 ≤ 9 := by omega
  simp only [formatDate, List.mem_cons, List.not_mem_nil, or_false] at hc
  rcases hc with h|h|h|h|h|h|h|h|h|h <;> subst h
  · exact pyIsSpace_digitChar _ hq1
  · exact pyIsSpace_digitChar _ hq2
  · exact pyIsSpace_digitChar _ hq3
  · exact pyIsSpace_digitChar _ hq4
  · decide
  · exact pyIsSpace_digitChar _ hm10
  · exact pyIsSpace_digitChar _ hm1
  · decide
  · exact pyIsSpace_digitChar _ hd10
  · exact pyIsSpace_digitChar _ hd1

theorem parse_format_roundtrip (y m d : Nat) (hy1 : 1 ≤ y) (hy2 : y ≤ 9999)
    (hm1 : 1 ≤ m) (hm2 : m ≤ 12) (hd1 : 1 ≤ d) (hd2 : d ≤ daysInMonth y m) :
    parse_note_date (some (String.mk (formatDate y m d))) = dateCode y m d := by
  have hd31 : d ≤ 31 := le_trans hd2 (daysInMonth_le y m)
  have hq1 : y / 1000 ≤ 9 := by omega
  have hq2 : y / 100 % 10 ≤ 9 := by omega
  have hq3 : y / 10 % 10 ≤ 9 := by omega
  have hq4 : y % 10 ≤ 9 := by omega
  have hm10 : m / 10 ≤ 9 := by omega
  have hm1d : m % 10 ≤ 9 := by omega
  have hd10 : d / 10 ≤ 9 := by omega
  have hd1d : d % 10 ≤ 9 := by omega
  have hne : (String.mk (formatDate y m d)).data.isEmpty = false := rfl
  have hbody : parse_note_date (some (String.mk (formatDate y m d))) =
      match parseDateChars (pyStrip (formatDate y m d)) with
      | some n => n
      | none => dateMin := rfl
  rw [hbody, formatDate_strip y m d hy2 hm2 hd31]
  have hyear : (((digitVal (digitChar (y / 1000)) * 10 + digitVal (digitChar (y / 100 % 10))) * 10 +
      digitVal (digitChar (y / 10 % 10))) * 10 + digitVal (digitChar (y % 10))) = y := by
    rw [digitVal_digitChar _ hq1, digitVal_digitChar _ hq2, digitVal_digitChar _ hq3,
      digitVal_digitChar _ hq4]
    omega
  have hmonth : digitVal (digitChar (m / 10)) * 10 + digitVal (digitChar (m % 10)) = m := by
    rw [digitVal_digitChar _ hm10, digitVal_digitChar _ hm1d]
    omega
  have hday : digitVal (digitChar (d / 10)) * 10 + digitVal (digitChar (d % 10)) = d := by
    rw [digitVal_digitChar _ hd10, digitVal_digitChar _ hd1d]
    omega
  have hpd : parseDateChars (formatDate y m d) =
      parseMonthDay y [digitChar (m / 10), digitChar (m % 10), '-',
        digitChar (d / 10), digitChar (d % 10)] := by
    simp only [formatDate, parseDateChars]
    rw [if_pos ⟨isAsciiDigit_digitChar _ hq1, isAsciiDigit_digitChar _ hq2,
      isAsciiDigit_digitChar _ hq3, isAsciiDigit_digitChar _ hq4, trivial⟩]
    rw [hyear]
  rw [hpd]
  have hmd : parseMonthDay y [digitChar (m / 10), digitChar (m % 10), '-',
      digitChar (d / 10), digitChar (d % 10)] = mkDate y m d := by
    simp only [parseMonthDay]
    rw [if_pos ⟨trivial, isAsciiDigit_digitChar _ hm10, isAsciiDigit_digitChar _ hm1d,
      by rw [hmonth]; omega, by rw [hmonth]; omega,
      isAsciiDigit_digitChar _ hd10, isAsciiDigit_digitChar _ hd1d,
      by rw [hday]; omega, by rw [hday]; omega⟩]
    rw [hmonth, hday]
  rw [hmd]
  unfold mkDate
  rw [if_pos ⟨hy1, hy2, hm1, hm2, hd1, hd2⟩]

theorem insertLe_perm (le : α → α → Bool) (x : α) (l : List α) :
    (insertLe le x l).Perm (x :: l) := by
  induction l with
  | nil => exact List.Perm.refl _
  | cons y ys ih =>
    by_cases hyx : le y x = true
    · rw [insertLe, if_pos hyx]
      exact (ih.cons y).trans (List.Perm.swap x y ys)
    · rw [insertLe, if_neg hyx]

theorem insertLe_pairwise (le : α → α → Bool)
    (htot : ∀ a b, le a b = true ∨ le b a = true)
    (htr : ∀ a b c, le a b = true → le b c = true → le a c = true)
    (x : α) (l : List α) (h : l.Pairwise (fun a b => le a b = true)) :
    (insertLe le x l).Pairwise (fun a b => le a b = true) := by
  induction l with
  | nil => simp [insertLe]
  | cons y ys ih =>
    rw [List.pairwise_cons] at h
    by_cases hyx : le y x = true
    · rw [insertLe, if_pos hyx]
      rw [List.pairwise_cons]
      refine ⟨?_, ih h.2⟩
      intro z hz
      rcases List.mem_cons.mp ((insertLe_perm le x ys).mem_iff.mp hz) with hzx | hzy
      · subst hzx
        exact hyx
      · exact h.1 z hzy
    · rw [insertLe, if_neg hyx]
      have hxy : le x y = true := by
        rcases htot x y with h2 | h2
        · exact h2
        · exact absurd h2 hyx
      rw [List.pairwise_cons]
      refine ⟨?_, List.pairwise_cons.mpr h⟩
      intro z hz
      rcases List.mem_cons.mp hz with hzy | hzys
      · subst hzy
        exact hxy
      · exact htr x y z hxy (h.1 z hzys)

theorem pySort_perm (le : α → α → Bool) (l : List α) : (pySort le l).Perm l := by
  suffices h : ∀ (m : List α) (acc : List α),
      (List.foldl (fun acc x => insertLe le x acc) acc m).Perm (acc ++ m) by
    simpa using h l []
  intro m
  induction m with
  | nil => intro acc; simp
  | cons x xs ih =>
    intro acc
    simp only [List.foldl_cons]
    exact (ih _).trans
      (((insertLe_perm le x acc).append_right xs).trans List.perm_middle.symm)

theorem pySort_pairwise (le : α → α → Bool)
    (htot : ∀ a b, le a b = true ∨ le b a = true)
    (htr : ∀ a b c, le a b = true → le b c = true → le a c = true)
    (l : List α) : (pySort le l).Pairwise (fun a b => le a b = true) := by
  suffices h : ∀ (m : List α) (acc : List α),
      acc.Pairwise (fun a b => le a b = true) →
      (List.foldl (fun acc x => insertLe le x acc) acc m).Pairwise
        (fun a b => le a b = true) by
    exact h l [] (by simp)
  intro m
  induction m with
  | nil => intro acc hacc; simpa using hacc
  | cons x xs ih =>
    intro acc hacc
    simp only [List.foldl_cons]
    exact ih _ (insertLe_pairwise le htot htr x acc hacc)

theorem lexLe_total (xs ys : List Char) : lexLe xs ys = true ∨ lexLe ys xs = true := by
  induction xs generalizing ys with
  | nil => left; rfl
  | cons a as ih =>
    cases ys with
    | nil => right; rfl
    | cons b bs =>
      by_cases h1 : a.toNat < b.toNat
      · left
        simp [lexLe, h1]
      · by_cases h2 : b.toNat < a.toNat
        · right
          simp [lexLe, h2]
        · rcases ih bs with h | h
          · left
            simp [lexLe, h1, h2, h]
          · right
            simp [lexLe, h1, h2, h]

theorem lexLe_trans (xs ys zs : List Char) (h1 : lexLe xs ys = true)
    (h2 : lexLe ys zs = true) : lexLe xs zs = true := by
  induction xs generalizing ys zs with
  | nil => rfl
  | cons a as ih =>
    cases ys with
    | nil => simp [lexLe] at h1
    | cons b bs =>
      cases zs with
      | nil => simp [lexLe] at h2
      | cons c cs =>
        by_cases hab : a.toNat < b.toNat
        · by_cases hbc : b.toNat < c.toNat
          · simp [lexLe, show a.toNat < c.toNat by omega]
          · by_cases hcb : c.toNat < b.toNat
            · have hf : c.toNat < b.toNat → False := by
                intro hx
                have : lexLe (b :: bs) (c :: cs) = false := by simp [lexLe, hbc, hx]
                rw [h2] at this
                exact absurd this (by decide)
              exact absurd hcb hf
            · simp [lexLe, show a.toNat < c.toNat by omega]
        · by_cases hba : b.toNat < a.toNat
          · simp [lexLe, hab, hba] at h1
          · by_cases hbc : b.toNat < c.toNat
            · simp [lexLe, show a.toNat < c.toNat by omega]
            · by_cases hcb : c.toNat < b.toNat
              · have : lexLe (b :: bs) (c :: cs) = false := by simp [lexLe, hbc, hcb]
                rw [h2] at this
                exact absurd this (by decide)
              · have h1t : lexLe as bs = true := by simpa [lexLe, hab, hba] using h1
                have h2t : lexLe bs cs = true := by simpa [lexLe, hbc, hcb] using h2
                simp [lexLe, show ¬a.toNat < c.toNat by omega,
                  show ¬c.toNat < a.toNat by omega]
                exact ih bs cs h1t h2t

theorem lexLe_antisymm (xs ys : List Char) (h1 : lexLe xs ys = true)
    (h2 : lexLe ys xs = true) : xs = ys := by
  induction xs generalizing ys with
  | nil =>
    cases ys with
    | nil => rfl
    | cons b bs => simp [lexLe] at h2
  | cons a as ih =>
    cases ys with
    | nil => simp [lexLe] at h1
    | cons b bs =>
      by_cases hab : a.toNat < b.toNat
      · have h2x := h2
        simp [lexLe, hab] at h2x
        omega
      · by_cases hba : b.toNat < a.toNat
        · exfalso
          simp [lexLe, hab, hba] at h1
        · have h1t : lexLe as bs = true := by
            simp [lexLe, hab, hba] at h1
            exact h1
          have h2t : lexLe bs as = true := by
            simp [lexLe, hab, hba] at h2
            exact h2
          rw [char_eq_of_toNat_eq (show a.toNat = b.toNat by omega), ih bs h1t h2t]

theorem noteKeyLe_total (a b : Note) : noteKeyLe a b = true ∨ noteKeyLe b a = true := by
  unfold noteKeyLe
  by_cases h1 : parse_note_date a.date < parse_note_date b.date
  · left
    simp [h1]
  · by_cases h2 : parse_note_date b.date < parse_note_date a.date
    · right
      simp [h2]
    · rcases lexLe_total (lowerTitle a) (lowerTitle b) with h | h
      · left
        simp [h1, h2, h]
      · right
        simp [h1, h2, h]

theorem noteKeyLe_trans (a b c : Note) (h1 : noteKeyLe a b = true)
    (h2 : noteKeyLe b c = true) : noteKeyLe a c = true := by
  unfold noteKeyLe at h1 h2 ⊢
  by_cases hab : parse_note_date a.date < parse_note_date b.date
  · by_cases hbc : parse_note_date b.date < parse_note_date c.date
    · simp [show parse_note_date a.date < parse_note_date c.date by omega]
    · by_cases hcb : parse_note_date c.date < parse_note_date b.date
      · simp [hbc, hcb] at h2
      · simp [show parse_note_date a.date < parse_note_date c.date by omega]
  · by_cases hba : parse_note_date b.date < parse_note_date a.date
    · simp [hab, hba] at h1
    · by_cases hbc : parse_note_date b.date < parse_note_date c.date
      · simp [show parse_note_date a.date < parse_note_date c.date by omega]
      · by_cases hcb : parse_note_date c.date < parse_note_date b.date
        · simp [hbc, hcb] at h2
        · simp [hab, hba] at h1
          simp [hbc, hcb] at h2
          simp [show ¬parse_note_date a.date < parse_note_date c.date by omega,
            show ¬parse_note_date c.date < parse_note_date a.date by omega]
          exact lexLe_trans _ _ _ h1 h2

theorem noteKeyLe_key_eq (a b : Note) (h1 : noteKeyLe a b = true)
    (h2 : noteKeyLe b a = true) : noteKey a = noteKey b := by
  unfold noteKeyLe at h1 h2
  by_cases hab : parse_note_date a.date < parse_note_date b.date
  · have h2x := h2
    simp [hab] at h2x
    omega
  · by_cases hba : parse_note_date b.date < parse_note_date a.date
    · exfalso
      simp [hab, hba] at h1
    · simp [hab, hba] at h1 h2
      unfold noteKey
      rw [lexLe_antisymm _ _ h1 h2, show parse_note_date a.date = parse_note_date b.date by omega]

theorem flatten_perm_of_forall {κ α : Type} (ks : List κ) (f g : κ → List α)
    (h : ∀ k ∈ ks, (f k).Perm (g k)) :
    ((ks.map f).flatten).Perm ((ks.map g).flatten) := by
  induction ks with
  | nil => simp
  | cons k ks ih =>
    simp only [List.map_cons, List.flatten_cons]
    exact (h k (List.mem_cons_self k ks)).append
      (ih (fun j hj => h j (List.mem_cons_of_mem _ hj)))

theorem flatten_filter_perm {α κ : Type} [DecidableEq κ] (key : α → κ) (ks : List κ)
    (l : List α) (hnd : ks.Nodup) (hcov : ∀ x ∈ l, key x ∈ ks) :
    ((ks.map (fun k => l.filter (fun x => key x = k))).flatten).Perm l := by
  induction ks generalizing l with
  | nil =>
    cases l with
    | nil => simp
    | cons a l2 => exact absurd (hcov a (List.mem_cons_self a l2)) (by simp)
  | cons k ks ih =>
    simp only [List.map_cons, List.flatten_cons]
    have hnd2 : ks.Nodup := (List.nodup_cons.mp hnd).2
    have hknot : k ∉ ks := (List.nodup_cons.mp hnd).1
    have hmapeq : ∀ j ∈ ks, l.filter (fun x => key x = j) =
        (l.filter (fun x => ¬key x = k)).filter (fun x => key x = j) := by
      intro j hj
      rw [List.filter_filter]
      apply List.filter_congr
      intro x hx
      by_cases hxj : key x = j
      · have hxk : ¬key x = k := by
          intro he
          have hjk : j = k := by rw [← hxj, he]
          exact hknot (hjk ▸ hj)
        have hjk : ¬j = k := by
          intro he
          exact hxk (he ▸ hxj)
        simp [hxj, hxk, hjk]
      · simp [hxj]
    rw [List.map_congr_left hmapeq]
    have hcov2 : ∀ x ∈ l.filter (fun x => ¬key x = k), key x ∈ ks := by
      intro x hx
      rcases List.mem_filter.mp hx with ⟨hxl, hxk⟩
      rcases List.mem_cons.mp (hcov x hxl) with h | h
      · exact absurd h (by simpa using hxk)
      · exact h
    have hfin := List.filter_append_perm (fun x => (key x = k : Bool)) l
    have heq : (fun x => !(key x = k : Bool)) = (fun x => (¬key x = k : Bool)) := by
      funext x
      simp [decide_not]
    rw [heq] at hfin
    exact (List.Perm.append_left _ (ih _ hnd2 hcov2)).trans hfin

theorem topicsOf_nodup (notes : List Note) : (topicsOf notes).Nodup :=
  (pySort_perm _ _).symm.nodup (List.nodup_dedup _)

theorem coursesOf_nodup (notes : List Note) (t : String) : (coursesOf notes t).Nodup :=
  (pySort_perm _ _).symm.nodup (List.nodup_dedup _)

theorem mem_topicsOf (notes : List Note) (x : Note) (hx : x ∈ notes) :
    x.topic ∈ topicsOf notes := by
  apply (pySort_perm _ _).mem_iff.mpr
  rw [List.mem_dedup]
  exact List.mem_map.mpr ⟨x, hx, rfl⟩

theorem mem_coursesOf (notes : List Note) (t : String) (x : Note)
    (hx : x ∈ topicNotes notes t) : x.course ∈ coursesOf notes t := by
  apply (pySort_perm _ _).mem_iff.mpr
  rw [List.mem_dedup]
  exact List.mem_map.mpr ⟨x, hx, rfl⟩

theorem navNotes_perm (notes : List Note) : (navNotes notes).Perm notes := by
  unfold navNotes
  have hinner : ∀ t ∈ topicsOf notes,
      ((((coursesOf notes t).map (fun c => sortAsc (groupNotes notes t c))).flatten)).Perm
        (topicNotes notes t) := by
    intro t ht
    have h1 := flatten_perm_of_forall (coursesOf notes t)
      (fun c => sortAsc (groupNotes notes t c)) (fun c => groupNotes notes t c)
      (fun c hc => pySort_perm _ _)
    have h2 := flatten_filter_perm Note.course (coursesOf notes t) (topicNotes notes t)
      (coursesOf_nodup notes t) (mem_coursesOf notes t)
    exact h1.trans h2
  have h3 := flatten_perm_of_forall (topicsOf notes)
    (fun t => (((coursesOf notes t).map (fun c => sortAsc (groupNotes notes t c))).flatten))
    (fun t => topicNotes notes t) hinner
  have h4 := flatten_filter_perm Note.topic (topicsOf notes) notes
    (topicsOf_nodup notes) (fun x hx => mem_topicsOf notes x hx)
  exact h3.trans h4

theorem topicsOf_sorted (notes : List Note) :
    (topicsOf notes).Pairwise (fun a b => lexLe a.data b.data = true) :=
  pySort_pairwise _ (fun (a b : String) => lexLe_total a.data b.data)
    (fun (a b c : String) => lexLe_trans a.data b.data c.data) _

theorem coursesOf_sorted (notes : List Note) (t : String) :
    (coursesOf notes t).Pairwise (fun a b => lexLe a.data b.data = true) :=
  pySort_pairwise _ (fun (a b : String) => lexLe_total a.data b.data)
    (fun (a b c : String) => lexLe_trans a.data b.data c.data) _

theorem sortAsc_sorted (l : List Note) :
    (sortAsc l).Pairwise (fun a b => noteKeyLe a b = true) :=
  pySort_pairwise _ noteKeyLe_total noteKeyLe_trans l

theorem sortDesc_sorted (l : List Note) :
    (sortDesc l).Pairwise (fun a b => noteKeyLe b a = true) :=
  pySort_pairwise _ (fun a b => noteKeyLe_total b a)
    (fun a b c h1 h2 => noteKeyLe_trans c b a h2 h1) l

theorem noteKeyLe_date_le (a b : Note) (h : noteKeyLe a b = true) :
    parse_note_date a.date ≤ parse_note_date b.date := by
  unfold noteKeyLe at h
  by_cases h1 : parse_note_date a.date < parse_note_date b.date
  · omega
  · by_cases h2 : parse_note_date b.date < parse_note_date a.date
    · simp [h1, h2] at h
    · omega

theorem sortDesc_eq_reverse_sortAsc (notes : List Note)
    (hnd : (notes.map noteKey).Nodup) :
    sortDesc notes = (sortAsc notes).reverse := by
  have hkeys : notes.Pairwise (fun a b => noteKey a ≠ noteKey b) := by
    rw [List.Nodup, List.pairwise_map] at hnd
    exact hnd
  have hperm : (sortDesc notes).Perm ((sortAsc notes).reverse) :=
    (pySort_perm _ _).trans ((pySort_perm _ _).symm.trans (List.reverse_perm _).symm)
  have hsym : ∀ {x y : Note}, noteKey x ≠ noteKey y → noteKey y ≠ noteKey x :=
    fun h => fun he => h he.symm
  have hne1 : (sortDesc notes).Pairwise (fun a b => noteKey a ≠ noteKey b) :=
    ((pySort_perm _ _).pairwise_iff hsym).mpr hkeys
  have hne2 : ((sortAsc notes).reverse).Pairwise (fun a b => noteKey a ≠ noteKey b) :=
    (((List.reverse_perm _).trans (pySort_perm _ _)).pairwise_iff hsym).mpr hkeys
  have hs1 : (sortDesc notes).Pairwise
      (fun a b => noteKeyLe b a = true ∧ noteKey a ≠ noteKey b) :=
    (sortDesc_sorted notes).and hne1
  have hs2 : ((sortAsc notes).reverse).Pairwise
      (fun a b => noteKeyLe b a = true ∧ noteKey a ≠ noteKey b) :=
    (List.pairwise_reverse.mpr (sortAsc_sorted notes)).and hne2
  haveI : IsAntisymm Note (fun a b => noteKeyLe b a = true ∧ noteKey a ≠ noteKey b) :=
    ⟨by
      intro a b hab hba
      exact absurd (noteKeyLe_key_eq a b hba.1 hab.1) hab.2⟩
  exact List.eq_of_perm_of_sorted hperm hs1 hs2

theorem dropWhile_nil_of_stripEnds_nil (p : Char → Bool) (l : List Char)
    (h : stripEnds p l = []) : l.dropWhile p = [] := by
  cases hA : l.dropWhile p with
  | nil => rfl
  | cons c cs =>
    exfalso
    have hc : ¬p c = true := by
      have := dropWhile_head_false p l c (by rw [hA]; rfl)
      simp [this]
    unfold stripEnds at h
    rw [hA] at h
    have h2 : (c :: cs).reverse.dropWhile p = [] := by
      have := congrArg List.reverse h
      simpa using this
    have h3 : ∀ x ∈ (c :: cs).reverse, p x = true :=
      List.dropWhile_eq_nil_iff.mp h2
    exact hc (h3 c (by simp))

theorem matchMetaLine_none_of_blank (l : String) (h : isBlankLine l = true) :
    matchMetaLine l = none := by
  unfold isBlankLine at h
  have h2 : l.data.dropWhile pyIsSpace = [] :=
    dropWhile_nil_of_stripEnds_nil pyIsSpace l.data (by simpa [pyStrip, List.isEmpty_iff] using h)
  unfold matchMetaLine
  rw [h2]

theorem parseMetaLines_eq_spec (doc : List String) (acc : List (String × String)) :
    parseMetaLines doc acc =
      ((doc.takeWhile (fun l => isBlankLine l || isCommentLine l)).filterMap
          matchMetaLine).foldl (fun m kv => metaInsert m kv.1 kv.2) acc := by
  induction doc generalizing acc with
  | nil => rfl
  | cons l ls ih =>
    by_cases hb : isBlankLine l = true
    · have hmm : matchMetaLine l = none := matchMetaLine_none_of_blank l hb
      rw [show parseMetaLines (l :: ls) acc = parseMetaLines ls acc from by
        simp [parseMetaLines, hb]]
      rw [List.takeWhile_cons_of_pos (by simp [hb])]
      rw [List.filterMap_cons, hmm]
      exact ih acc
    · by_cases hc : isCommentLine l = true
      · rw [List.takeWhile_cons_of_pos (by simp [hc])]
        rw [List.filterMap_cons]
        cases hmm : matchMetaLine l with
        | none =>
          rw [show parseMetaLines (l :: ls) acc = parseMetaLines ls acc from by
            simp [parseMetaLines, hb, hc, hmm]]
          exact ih acc
        | some kv =>
          rw [show parseMetaLines (l :: ls) acc =
              parseMetaLines ls (metaInsert acc kv.1 kv.2) from by
            simp [parseMetaLines, hb, hc, hmm]]
          rw [List.foldl_cons]
          exact ih _
      · rw [show parseMetaLines (l :: ls) acc = acc from by
          simp [parseMetaLines, hb, hc]]
        rw [List.takeWhile_cons_of_neg (by simp [hb, hc])]
        rfl

theorem find_replace (m : List (String × String)) (k v : String)
    (hc : k ∈ m.map Prod.fst) :
    (m.map (fun kv => if kv.1 = k then (k, v) else kv)).find?
      (fun kv => kv.1 = k) = some (k, v) := by
  induction m with
  | nil => simp at hc
  | cons kv0 m0 ih =>
    by_cases h0 : kv0.1 = k
    · rw [List.map_cons, if_pos h0]
      exact List.find?_cons_of_pos _ (by simp)
    · rw [List.map_cons, if_neg h0]
      rw [List.find?_cons_of_neg _ (by simpa using h0)]
      exact ih (by
        rcases List.mem_cons.mp hc with h | h
        · exact absurd h.symm h0
        · exact h)

theorem find_append_new (m : List (String × String)) (k v : String)
    (hc : k ∉ m.map Prod.fst) :
    (m ++ [(k, v)]).find? (fun kv => kv.1 = k) = some (k, v) := by
  induction m with
  | nil => exact List.find?_cons_of_pos _ (by simp)
  | cons kv0 m0 ih =>
    have h0 : ¬kv0.1 = k := by
      intro he
      exact hc (List.mem_cons.mpr (Or.inl he.symm))
    rw [List.cons_append]
    rw [List.find?_cons_of_neg _ (by simpa using h0)]
    exact ih (fun hm => hc (List.mem_cons.mpr (Or.inr hm)))

theorem lookupMeta_metaInsert (m : List (String × String)) (k v : String) :
    lookupMeta (metaInsert m k v) k = some v := by
  unfold metaInsert lookupMeta
  by_cases hc : k ∈ m.map Prod.fst
  · rw [if_pos hc, find_replace m k v hc]
    rfl
  · rw [if_neg hc, find_append_new m k v hc]
    rfl

theorem build_note_ok (f : TexFile) (t c : String) (rest : List String)
    (h : f.parts = t :: c :: rest) (hr : rest ≠ []) :
    ∃ n : Note, build_note f = Except.ok n ∧ n.topic = safe_segment t ∧
      n.course = safe_segment c := by
  cases rest with
  | nil => exact absurd rfl hr
  | cons r rs =>
    unfold build_note
    rw [h]
    exact ⟨_, rfl, rfl, rfl⟩

theorem build_note_error_msg (f : TexFile) (e : String)
    (h : build_note f = Except.error e) : e = pathErrorMessage := by
  rcases f with ⟨parts, lns⟩
  rcases parts with _ | ⟨a, _ | ⟨b, _ | ⟨d, ps⟩⟩⟩
  · cases h
    rfl
  · cases h
    rfl
  · cases h
    rfl
  · obtain ⟨n, hn⟩ : ∃ n, build_note ⟨a :: b :: d :: ps, lns⟩ = Except.ok n := ⟨_, rfl⟩
    rw [hn] at h
    cases h

theorem build_note_error_of_short (f : TexFile) (h : f.parts.length < 3) :
    build_note f = Except.error pathErrorMessage := by
  unfold build_note infer_topic_course
  cases hp : f.parts with
  | nil => rfl
  | cons a ps =>
    cases ps with
    | nil => rfl
    | cons b ps2 =>
      cases ps2 with
      | nil => rfl
      | cons d ps3 =>
        rw [hp] at h
        simp at h
        omega

theorem build_notes_index_error_of_short (files : List TexFile)
    (h : ∃ f ∈ files, f.parts.length < 3) :
    build_notes_index files = Except.error pathErrorMessage := by
  induction files with
  | nil =>
    obtain ⟨f, hf, _⟩ := h
    simp at hf
  | cons f fs ih =>
    obtain ⟨g, hg, hgl⟩ := h
    rcases List.mem_cons.mp hg with hgf | hgfs
    · subst hgf
      rw [show build_notes_index (g :: fs) =
          match build_note g with
          | Except.error e => Except.error e
          | Except.ok n =>
            match build_notes_index fs with
            | Except.error e => Except.error e
            | Except.ok ns => Except.ok (n :: ns) from rfl]
      rw [build_note_error_of_short g hgl]
    · rw [show build_notes_index (f :: fs) =
          match build_note f with
          | Except.error e => Except.error e
          | Except.ok n =>
            match build_notes_index fs with
            | Except.error e => Except.error e
            | Except.ok ns => Except.ok (n :: ns) from rfl]
      cases hb : build_note f with
      | error e => rw [build_note_error_msg f e hb]
      | ok n => rw [ih ⟨g, hgfs, hgl⟩]

theorem build_notes_index_error_msg (files : List TexFile) (e : String)
    (h : build_notes_index files = Except.error e) : e = pathErrorMessage := by
  induction files with
  | nil => cases h
  | cons f fs ih =>
    rw [show build_notes_index (f :: fs) =
        match build_note f with
        | Except.error e => Except.error e
        | Except.ok n =>
          match build_notes_index fs with
          | Except.error e => Except.error e
          | Except.ok ns => Except.ok (n :: ns) from rfl] at h
    cases hb : build_note f with
    | error e2 =>
      rw [hb] at h
      cases h
      exact build_note_error_msg f _ hb
    | ok n =>
      rw [hb] at h
      cases hi : build_notes_index fs with
      | error e2 =>
        rw [hi] at h
        cases h
        exact ih hi
      | ok ns =>
        rw [hi] at h
        cases h

theorem build_notes_index_length (files : List TexFile) (ns : List Note)
    (h : build_notes_index files = Except.ok ns) : ns.length = files.length := by
  induction files generalizing ns with
  | nil =>
    cases h
    rfl
  | cons f fs ih =>
    rw [show build_notes_index (f :: fs) =
        match build_note f with
        | Except.error e => Except.error e
        | Except.ok n =>
          match build_notes_index fs with
          | Except.error e => Except.error e
          | Except.ok ns => Except.ok (n :: ns) from rfl] at h
    cases hb : build_note f with
    | error e2 =>
      rw [hb] at h
      cases h
    | ok n =>
      rw [hb] at h
      cases hi : build_notes_index fs with
      | error e2 =>
        rw [hi] at h
        cases h
      | ok ns2 =>
        rw [hi] at h
        cases h
        simp [ih ns2 hi]

/-- C1 counterexample: the homepage listing is *not* in general the
reverse of the full ascending sort — on the key tie `tieNoteA`/`tieNoteB`
the stable descending sort keeps registry order while the reversed
ascending sort swaps the two — and a note with a missing date is *not*
in general placed after every dated note: `laterUndated` (no date)
precedes `earlyDated` (dated `0001-01-01`, which parses to the very
sentinel) in the homepage listing. -/
theorem C1_counterexample :
    homepageNotes [tieNoteA, tieNoteB] ≠
      ((sortAsc [tieNoteA, tieNoteB]).reverse).take 30 ∧
    homepageNotes [earlyDated, laterUndated] = [laterUndated, earlyDated] ∧
    parse_note_date laterUndated.date = dateMin ∧
    earlyDated.date = some "0001-01-01" ∧
    parse_note_date earlyDated.date = dateMin := by decide

/-- C1 (amended): the homepage listing is the stable descending sort of
the registry by (parsed date, lower-cased title) truncated to 30
entries: its length is `min 30 (number of notes)`; adjacent entries are
in descending key order, hence in descending parsed-date order (so a
note with a missing or unparseable date — sentinel date — never
precedes a note with a strictly later parsed date); and whenever all
sort keys in the registry are distinct it equals the reverse of the
full ascending sort truncated to 30 (the unqualified claim fails on key
ties, and undated-last holds only up to sentinel-date ties — see the
counterexample). -/
theorem C1_homepage_listing (notes : List Note) :
    (homepageNotes notes).length = min 30 notes.length ∧
    (homepageNotes notes).Pairwise (fun a b => noteKeyLe b a = true) ∧
    (homepageNotes notes).Pairwise
      (fun a b => parse_note_date b.date ≤ parse_note_date a.date) ∧
    ((notes.map noteKey).Nodup →
      homepageNotes notes = ((sortAsc notes).reverse).take 30) := by
  have hp : (homepageNotes notes).Pairwise (fun a b => noteKeyLe b a = true) :=
    (sortDesc_sorted notes).sublist (List.take_sublist 30 _)
  refine ⟨?_, hp, ?_, ?_⟩
  · unfold homepageNotes
    rw [List.length_take, show (sortDesc notes).length = notes.length from
      (pySort_perm _ _).length_eq]
  · exact hp.imp (fun hab => noteKeyLe_date_le _ _ hab)
  · intro hnd
    unfold homepageNotes
    rw [sortDesc_eq_reverse_sortAsc notes hnd]

/-- Closed witness for C1, instantiating the distinct-keys conjunct on a
concrete registry. -/
theorem C1_homepage_listing_witness :
    (sampleRegistry.map noteKey).Nodup ∧
    homepageNotes sampleRegistry = ((sortAsc sampleRegistry).reverse).take 30 :=
  ⟨by decide, (C1_homepage_listing sampleRegistry).2.2.2 (by decide)⟩

/-- C2: for every non-empty registry the emitted sidebar contents are
the fixed Home entry followed by one section per topic, topics in
Python-sorted order of the (sanitized) topic keys and pairwise
distinct; each topic contains one section per course in sorted order,
pairwise distinct; and each course lists the notes of its group so that
adjacent pairs are in ascending (parsed date, lower-cased title) key
order. -/
theorem C2_sidebar_structure (notes : List Note) (h : notes ≠ []) :
    generate_quarto_yml notes = some (SidebarEntry.link homeEntry ::
      (topicsOf notes).map (fun t => SidebarEntry.topicSec (topicBlock notes t))) ∧
    (topicsOf notes).Nodup ∧
    (topicsOf notes).Pairwise (fun a b => lexLe a.data b.data = true) ∧
    (∀ t, (coursesOf notes t).Nodup ∧
      (coursesOf notes t).Pairwise (fun a b => lexLe a.data b.data = true)) ∧
    (∀ t c, (courseBlock notes t c).leaves =
        (sortAsc (groupNotes notes t c)).map (fun n => NavLeaf.mk n.title (href n)) ∧
      (sortAsc (groupNotes notes t c)).Pairwise (fun a b => noteKeyLe a b = true)) := by
  refine ⟨?_, topicsOf_nodup notes, topicsOf_sorted notes,
    fun t => ⟨coursesOf_nodup notes t, coursesOf_sorted notes t⟩,
    fun t c => ⟨rfl, sortAsc_sorted _⟩⟩
  cases notes with
  | nil => exact absurd rfl h
  | cons n ns => rfl

/-- Closed witness for C2 on a concrete registry. -/
theorem C2_sidebar_structure_witness :
    sampleRegistry ≠ [] ∧
    generate_quarto_yml sampleRegistry = some (SidebarEntry.link homeEntry ::
      (topicsOf sampleRegistry).map
        (fun t => SidebarEntry.topicSec (topicBlock sampleRegistry t))) :=
  ⟨by decide, (C2_sidebar_structure sampleRegistry (by decide)).1⟩

/-- C4: for every non-empty registry the emitter succeeds, its note
leaves are exactly the flattened navigation order of the grouped notes,
and that flattening is a permutation of the registry — grouping is
complete and lossless (every note in exactly one (topic, course) group,
appearing exactly once as a leaf), and it never fails regardless of the
dates or titles of the notes. -/
theorem C4_grouping_lossless (notes : List Note) (h : notes ≠ []) :
    (∃ sb, generate_quarto_yml notes = some sb ∧
      sidebarNoteLeaves sb = (navNotes notes).map (fun n => NavLeaf.mk n.title (href n))) ∧
    (navNotes notes).Perm notes := by
  refine ⟨?_, navNotes_perm notes⟩
  cases notes with
  | nil => exact absurd rfl h
  | cons n ns =>
    refine ⟨_, rfl, ?_⟩
    unfold sidebarNoteLeaves navNotes
    rw [List.map_cons, List.flatten_cons]
    rw [show entryLeaves (SidebarEntry.link homeEntry) = [] from rfl, List.nil_append]
    rw [List.map_flatten, List.map_map, List.map_map]
    refine congrArg List.flatten (List.map_congr_left ?_)
    intro t ht
    simp only [Function.comp, entryLeaves, topicBlock, courseBlock, List.map_map]
    rw [List.map_flatten, List.map_map]
    refine congrArg List.flatten (List.map_congr_left ?_)
    intro c hc
    rfl

/-- Closed witness for C4 on a concrete registry. -/
theorem C4_grouping_lossless_witness :
    sampleRegistry ≠ [] ∧
    (navNotes sampleRegistry).Perm sampleRegistry :=
  ⟨by decide, (C4_grouping_lossless sampleRegistry (by decide)).2⟩

/-- C3 counterexample: `"2024-3-1"` is not in `YYYY-MM-DD` format, yet
`parse_note_date` maps it to March 1, 2024 rather than to the sentinel
— `strptime` accepts one-digit months and days, so the parser does not
accept *exactly* the `YYYY-MM-DD` format. -/
theorem C3_counterexample :
    parse_note_date (some "2024-3-1") = dateCode 2024 3 1 ∧
    dateCode 2024 3 1 ≠ dateMin := by decide

/-- C3 (amended): date parsing is total; every zero-padded `YYYY-MM-DD`
string denoting a real calendar date (year 1-9999) parses to that date
(the parser moreover tolerates surrounding whitespace and one- or
two-digit month/day, which is what refutes "accepts exactly
YYYY-MM-DD"); absence (`None`/empty) and unparseable strings map
without raising to the sentinel `date.min` = `0001-01-01`; and an
undated note sorts before any note whose parsed date is strictly later
than the sentinel in ascending key order, and after it in the
descending homepage order — as in the §8 scenario with dates
"2024-03-01" and missing. -/
theorem C3_date_parsing_amended :
    (∀ y m d : Nat, 1 ≤ y → y ≤ 9999 → 1 ≤ m → m ≤ 12 → 1 ≤ d → d ≤ daysInMonth y m →
      parse_note_date (some (String.mk (formatDate y m d))) = dateCode y m d) ∧
    parse_note_date none = dateMin ∧
    parse_note_date (some "") = dateMin ∧
    parse_note_date (some "March 1, 2024") = dateMin ∧
    parse_note_date (some "2024-13-01") = dateMin ∧
    (∀ a b : Note, parse_note_date a.date = dateMin →
      dateMin < parse_note_date b.date →
      noteKeyLe a b = true ∧ noteKeyLe b a = false) ∧
    sortAsc [scenarioDated, scenarioUndated] = [scenarioUndated, scenarioDated] ∧
    homepageNotes [scenarioDated, scenarioUndated] = [scenarioDated, scenarioUndated] := by
  refine ⟨fun y m d h1 h2 h3 h4 h5 h6 => parse_format_roundtrip y m d h1 h2 h3 h4 h5 h6,
    by decide, by decide, by decide, by decide, ?_, by decide, by decide⟩
  intro a b ha hb
  constructor
  · unfold noteKeyLe
    rw [ha]
    rw [if_pos hb]
  · unfold noteKeyLe
    rw [ha]
    rw [if_neg (by omega), if_pos hb]

/-- Closed witness for C3, instantiating the round trip and the sort
placement at concrete inputs. -/
theorem C3_date_parsing_amended_witness :
    (1 ≤ 2024 ∧ 2024 ≤ 9999 ∧ 1 ≤ 3 ∧ 3 ≤ 12 ∧ 1 ≤ 15 ∧ 15 ≤ daysInMonth 2024 3) ∧
    parse_note_date (some (String.mk (formatDate 2024 3 15))) = dateCode 2024 3 15 ∧
    (parse_note_date scenarioUndated.date = dateMin ∧
      dateMin < parse_note_date scenarioDated.date) ∧
    (noteKeyLe scenarioUndated scenarioDated = true ∧
      noteKeyLe scenarioDated scenarioUndated = false) :=
  ⟨by decide,
    C3_date_parsing_amended.1 2024 3 15 (by decide) (by decide) (by decide) (by decide)
      (by decide) (by decide),
    by decide,
    C3_date_parsing_amended.2.2.2.2.2.1 scenarioUndated scenarioDated (by decide) (by decide)⟩

/-- C6: a relative path with fewer than 3 components is a fatal
configuration error carrying the path diagnostic; with at least 3
components the classifier returns the first two components raw
(unsanitized); and a registry containing any too-shallow path makes the
whole pipeline abort with that error before producing any output. -/
theorem C6_path_classification :
    (∀ parts : List String, parts.length < 3 →
      infer_topic_course parts = Except.error pathErrorMessage) ∧
    (∀ (t c r : String) (rs : List String),
      infer_topic_course (t :: c :: r :: rs) = Except.ok (t, c)) ∧
    (∀ files : List TexFile, (∃ f ∈ files, f.parts.length < 3) →
      mainModel files = Except.error pathErrorMessage) := by
  refine ⟨?_, fun t c r rs => rfl, ?_⟩
  · intro parts h
    rcases parts with _ | ⟨a, _ | ⟨b, _ | ⟨d, ps⟩⟩⟩
    · rfl
    · rfl
    · rfl
    · simp at h
      omega
  · intro files hex
    have hne : ¬files.isEmpty = true := by
      obtain ⟨f, hf, _⟩ := hex
      cases files with
      | nil => simp at hf
      | cons g gs => simp
    unfold mainModel
    rw [if_neg hne]
    rw [build_notes_index_error_of_short files hex]

/-- Closed witness for C6 at the §8 scenario input `topic/file.tex`. -/
theorem C6_path_classification_witness :
    (["topic", "file.tex"] : List String).length < 3 ∧
    infer_topic_course ["topic", "file.tex"] = Except.error pathErrorMessage ∧
    (∃ f ∈ [shallowFile], f.parts.length < 3) ∧
    mainModel [shallowFile] = Except.error pathErrorMessage :=
  ⟨by decide, C6_path_classification.1 ["topic", "file.tex"] (by decide), by decide,
    C6_path_classification.2.2 [shallowFile] (by decide)⟩

/-- C10: on an empty registry `generate_quarto_yml` fails (the
`NameError` on the never-assigned `sidebar_contents`, modelled as
`none`) before writing the configuration, and succeeds on every
non-empty registry; the caller guarantees the precondition: `main`
aborts with the no-input diagnostic when there are no files, and no
run of the pipeline ever surfaces the `NameError`. -/
theorem C10_empty_registry_navigation :
    generate_quarto_yml ([] : List Note) = none ∧
    (∀ notes : List Note, notes ≠ [] → ∃ sb, generate_quarto_yml notes = some sb) ∧
    mainModel [] = Except.error noTexMessage ∧
    (∀ files : List TexFile, mainModel files ≠ Except.error nameErrorMessage) := by
  refine ⟨rfl, ?_, rfl, ?_⟩
  · intro notes h
    cases notes with
    | nil => exact absurd rfl h
    | cons n ns => exact ⟨_, rfl⟩
  · intro files hcon
    unfold mainModel at hcon
    by_cases he : files.isEmpty = true
    · rw [if_pos he] at hcon
      have h2 : noTexMessage = nameErrorMessage := by injection hcon
      exact absurd h2 (by decide)
    · rw [if_neg he] at hcon
      cases hb : build_notes_index files with
      | error e =>
        rw [hb] at hcon
        have h2 : e = nameErrorMessage := by injection hcon
        have h3 := build_notes_index_error_msg files e hb
        rw [h3] at h2
        exact absurd h2 (by decide)
      | ok notes =>
        rw [hb] at hcon
        cases hnn : notes with
        | nil =>
          have hlen := build_notes_index_length files notes hb
          rw [hnn] at hlen
          have hf0 : files.length = 0 := by simpa using hlen.symm
          have hfe : files.isEmpty = true := by
            cases files with
            | nil => rfl
            | cons g gs => simp at hf0
          exact he hfe
        | cons n ns =>
          rw [hnn] at hcon
          cases hcon

/-- Closed witness for C10 at concrete inputs. -/
theorem C10_empty_registry_navigation_witness :
    sampleRegistry ≠ [] ∧
    (∃ sb, generate_quarto_yml sampleRegistry = some sb) ∧
    mainModel [shallowFile] ≠ Except.error nameErrorMessage :=
  ⟨by decide, C10_empty_registry_navigation.2.1 sampleRegistry (by decide),
    C10_empty_registry_navigation.2.2.2 [shallowFile]⟩

/-- C5: metadata extraction scans lines from the start while they are
blank or comment-marked and stops at the first other line; each comment
line matching `marker key : value` (key of word characters and hyphens)
records lowercased key → trimmed value, later keys overwriting earlier
ones; non-matching comment lines are ignored; and a document with no
metadata yields the empty mapping without error.  Stated as: the
scanning loop coincides with the spec-shaped
takeWhile/filterMap/fold description, plus the overwrite law, the empty
cases and the concrete scan behaviours. -/
theorem C5_metadata_extraction :
    (∀ doc : List String, parse_tex_metadata doc = parse_tex_metadata_spec doc) ∧
    parse_tex_metadata [] = [] ∧
    (∀ (l : String) (ls : List String), ¬isBlankLine l = true → ¬isCommentLine l = true →
      parse_tex_metadata (l :: ls) = []) ∧
    (∀ (m : List (String × String)) (k v : String),
      lookupMeta (metaInsert m k v) k = some v) ∧
    lookupMeta (parse_tex_metadata
      ["% title: Newtons Laws", "%   date :  2024-01-05  ", "", "% date: 2024-02-06",
        "\\section"]) "date" = some "2024-02-06" ∧
    lookupMeta (parse_tex_metadata ["% title: X", "body", "% date: 2024"]) "date" = none := by
  refine ⟨fun doc => parseMetaLines_eq_spec doc [], rfl, ?_, lookupMeta_metaInsert,
    by decide, by decide⟩
  intro l ls hb hc
  unfold parse_tex_metadata
  simp [parseMetaLines, hb, hc]

/-- Closed witness for C5 at concrete lines, keys and values. -/
theorem C5_metadata_extraction_witness :
    (¬isBlankLine "body text" = true ∧ ¬isCommentLine "body text" = true) ∧
    parse_tex_metadata ["body text", "% a: 1"] = [] ∧
    parse_tex_metadata ["% a: 1"] = parse_tex_metadata_spec ["% a: 1"] ∧
    lookupMeta (metaInsert [("a", "1")] "a" "2") "a" = some "2" :=
  ⟨⟨by decide, by decide⟩,
    C5_metadata_extraction.2.2.1 "body text" ["% a: 1"] (by decide) (by decide),
    C5_metadata_extraction.1 ["% a: 1"],
    C5_metadata_extraction.2.2.2.1 [("a", "1")] "a" "2"⟩

end BuildNotes
